import Mathlib

/-!
Verification of the Google-Trends text-normalization pipeline
(`data-cleaner.tsx`: `cleanTrendsData`, `cleanTrendsDataArray`,
`convertCleanedDataToCSV`) and of the downstream CSV re-parser in
`evaluator.tsx` (`evaluateTopics`), as a shallow embedding over `List Char`.

JavaScript strings are modelled as `List Char` (wrapped in `String` at the
record boundary).  The concrete regular expressions used by the source are
embedded as dedicated matching functions with JavaScript semantics
(leftmost match, greedy quantifiers with backtracking); where a greedy
quantifier is implemented by maximal munch, the continuation of that
quantifier cannot start with a character the quantifier accepts, so the
maximal-munch result coincides with full backtracking.  JavaScript
whitespace (for `trim` and `\s`) is modelled by the character set below;
exotic Unicode space characters outside this set are outside the model.
-/

/-- The whitespace characters recognised by the model of JavaScript
`String.prototype.trim` and of the regex class `\s`. -/
def isJsSpace (c : Char) : Bool :=
  c == ' ' || c == '\t' || c == '\n' || c == '\r' ||
  c == '\x0b' || c == '\x0c' || c == ' ' || c == '﻿'

/-- The middle-dot separator character that appears in the scraped blobs. -/
def middleDot : Char := '·'

/-- JavaScript `s.trim()`: remove leading and trailing whitespace. -/
def jsTrim (l : List Char) : List Char :=
  ((l.dropWhile isJsSpace).reverse.dropWhile isJsSpace).reverse

/-- JavaScript `s.replace(/^"|"$/g, '')`: remove one leading double quote
if present, then one trailing double quote if one remains. -/
def stripWrapQuotes (l : List Char) : List Char :=
  let l1 := if l.head? == some '"' then l.tail else l
  if l1.getLast? == some '"' then l1.dropLast else l1

/-- JavaScript `hay.includes(needle)`: `needle` occurs as a contiguous
substring of `hay`. -/
def jsIncludes : List Char → List Char → Bool
  | [], needle => needle.isEmpty
  | c :: t, needle => needle.isPrefixOf (c :: t) || jsIncludes t needle

/-- Cleaning applied by the splitter to each pushed segment:
`current.trim().replace(/^"|"$/g, '')`. -/
def cleanSegment (l : List Char) : List Char :=
  stripWrapQuotes (jsTrim l)

/-- The character loop of `cleanTrendsData` (data-cleaner.tsx, lines 13-31):
split on commas outside quotes, toggling `inQuotes` on every double quote
not preceded by a backslash (quote characters are appended to the current
segment and removed later by `cleanSegment`); the final segment is pushed
only when non-empty.  `prevNotBS` records that the previous character was
not a backslash (true at the start of the input). -/
def splitFieldsAux : List Char → Bool → Bool → List Char → List (List Char)
  | [], _, _, current =>
      if current.isEmpty then [] else [cleanSegment current]
  | c :: rest, prevNotBS, inQ, current =>
      if c == '"' && prevNotBS then
        splitFieldsAux rest (c != '\\') (!inQ) (current ++ [c])
      else if c == ',' && !inQ then
        cleanSegment current :: splitFieldsAux rest (c != '\\') inQ []
      else
        splitFieldsAux rest (c != '\\') inQ (current ++ [c])

/-- The field sequence produced for one raw blob. -/
def fieldsOf (rawData : String) : List (List Char) :=
  splitFieldsAux rawData.data true false []

/-- `fieldsOf`, with each field wrapped back into a `String`. -/
def splitFields (rawData : String) : List String :=
  (fieldsOf rawData).map String.mk

/-- JavaScript `s.split(sep)` for a one-character separator (used by the
downstream evaluator); `"".split(sep)` is `[""]`. -/
def splitOnChar (sep : Char) : List Char → List (List Char)
  | [] => [[]]
  | c :: rest =>
      if c == sep then [] :: splitOnChar sep rest
      else
        match splitOnChar sep rest with
        | s :: ss => (c :: s) :: ss
        | [] => [[c]]

/-- The tail `(?:,\d{3})*%` of the grouped-thousands percentage patterns,
with JavaScript greedy backtracking: prefer one more `,\d\d\d` repetition,
and on failure of the continuation fall back to matching `%` at the
current position.  Returns the consumed characters. -/
def commaGroupsPct : List Char → Option (List Char)
  | ',' :: a :: b :: c :: rest =>
      if a.isDigit && b.isDigit && c.isDigit then
        match commaGroupsPct rest with
        | some t => some (',' :: a :: b :: c :: t)
        | none => none
      else none
  | '%' :: _ => some ['%']
  | _ => none

/-- One attempt of `\d{1,3}` at exactly `n` digits, continued by
`commaGroupsPct`. -/
def tryDigitsPct (n : Nat) (cs : List Char) : Option (List Char) :=
  let ds := cs.take n
  if ds.length == n && ds.all Char.isDigit then
    match commaGroupsPct (cs.drop n) with
    | some t => some (ds ++ t)
    | none => none
  else none

/-- The pattern `(\d{1,3}(?:,\d{3})*%)` anchored at the current position:
`\d{1,3}` is greedy, so three digits are tried first, then two, then one. -/
def groupedPctAt (cs : List Char) : Option (List Char) :=
  match tryDigitsPct 3 cs with
  | some r => some r
  | none =>
      match tryDigitsPct 2 cs with
      | some r => some r
      | none => tryDigitsPct 1 cs

/-- Helper for the tail `(?:,\d+)*%`: position inside the digit run of a
repetition, after at least one digit.  A digit extends the run (maximal
munch; the continuation starts with `,` or `%`, never with a digit), `%`
ends the match, `,` followed by a digit starts the next repetition. -/
def commaDigitsPctRun : List Char → Option (List Char)
  | [] => none
  | c :: rest =>
      if c.isDigit then (commaDigitsPctRun rest).map (c :: ·)
      else if c == '%' then some ['%']
      else if c == ',' then
        match rest with
        | d :: rest2 =>
            if d.isDigit then (commaDigitsPctRun rest2).map (fun t => ',' :: d :: t)
            else none
        | [] => none
      else none

/-- The tail `(?:,\d+)*%` of the loose percentage pattern, entered right
after the leading `\d+` (so the next character is never a digit). -/
def commaDigitsPct : List Char → Option (List Char)
  | '%' :: _ => some ['%']
  | ',' :: d :: rest =>
      if d.isDigit then (commaDigitsPctRun rest).map (fun t => ',' :: d :: t)
      else none
  | _ => none

/-- The pattern `(\d+(?:,\d+)*%)` anchored at the current position
(fallback pattern 3 of the growth extraction). -/
def loosePctAt (cs : List Char) : Option (List Char) :=
  let ds := cs.takeWhile Char.isDigit
  if ds.isEmpty then none
  else
    match commaDigitsPct (cs.drop ds.length) with
    | some t => some (ds ++ t)
    | none => none

/-- The pattern `arrow_upward(\d{1,3}(?:,\d{3})*%)` anchored at the current
position; the capture group excludes the literal label. -/
def arrowUpwardPctAt (cs : List Char) : Option (List Char) :=
  if ("arrow_upward".data).isPrefixOf cs then
    groupedPctAt (cs.drop 12)
  else none

/-- Case-insensitive literal-prefix test (`pat` given in lower case),
modelling a literal under the regex `i` flag. -/
def lowerPrefix : List Char → List Char → Bool
  | [], _ => true
  | _ :: _, [] => false
  | p :: ps, c :: rest => c.toLower == p && lowerPrefix ps rest

/-- `[KM]` under the `i` flag. -/
def isKM (c : Char) : Bool :=
  c == 'K' || c == 'M' || c == 'k' || c == 'm'

/-- The suffix `\s*searches?` of the volume pattern: skip whitespace
(maximal munch is exact because `s` is not whitespace) and require the
literal `searche` case-insensitively; the final optional `s` cannot affect
success or the capture. -/
def volSuffixOk (cs : List Char) : Bool :=
  lowerPrefix "searche".data (cs.dropWhile isJsSpace)

/-- The `\+?\s*searches?` continuation when the optional `[KM]` is not
taken, with the greedy `\+?` tried first.  Returns the capture-group
characters after the digits. -/
def volNoKM (r0 : List Char) : Option (List Char) :=
  match r0 with
  | '+' :: r2 =>
      if volSuffixOk r2 then some ['+']
      else if volSuffixOk r0 then some [] else none
  | _ => if volSuffixOk r0 then some [] else none

/-- The pattern `(\d+[KM]?\+?)\s*searches?` (with the `i` flag) anchored at
the current position; returns the capture group `\d+[KM]?\+?`.  `\d+` is
maximal munch (no continuation starts with a digit); the optionals are
tried greedily in backtracking order. -/
def volAt (cs : List Char) : Option (List Char) :=
  let ds := cs.takeWhile Char.isDigit
  if ds.isEmpty then none
  else
    let r0 := cs.drop ds.length
    match r0 with
    | k :: r1 =>
        if isKM k then
          match r1 with
          | '+' :: r2 =>
              if volSuffixOk r2 then some (ds ++ [k, '+'])
              else if volSuffixOk r1 then some (ds ++ [k])
              else (volNoKM r0).map (ds ++ ·)
          | _ =>
              if volSuffixOk r1 then some (ds ++ [k])
              else (volNoKM r0).map (ds ++ ·)
        else (volNoKM r0).map (ds ++ ·)
    | [] => (volNoKM r0).map (ds ++ ·)

/-- The alternation `hours?|h|minutes?|m` under the `i` flag, returning the
consumed characters.  Alternatives are tried left to right; when a longer
alternative matches but its continuation fails, the shorter alternative
leaves the continuation facing `our…`/`inut…` and fails as well, so
committing to the first matching alternative agrees with backtracking. -/
def timeUnitAt (cs : List Char) : Option (List Char) :=
  if lowerPrefix "hour".data cs then
    match cs.drop 4 with
    | s :: _ => if s.toLower == 's' then some (cs.take 5) else some (cs.take 4)
    | [] => some (cs.take 4)
  else
    match cs with
    | c :: _ =>
        if c.toLower == 'h' then some [c]
        else if lowerPrefix "minute".data cs then
          match cs.drop 6 with
          | s :: _ => if s.toLower == 's' then some (cs.take 7) else some (cs.take 6)
          | [] => some (cs.take 6)
        else if c.toLower == 'm' then some [c]
        else none
    | [] => none

/-- The pattern `(\d+\s*(?:hours?|h|minutes?|m)\s*ago)` (with the `i`
flag) anchored at the current position.  Both `\s*` are maximal munch
(their continuations start with a unit letter or `a`). -/
def timeAt (cs : List Char) : Option (List Char) :=
  let ds := cs.takeWhile Char.isDigit
  if ds.isEmpty then none
  else
    let r1 := cs.drop ds.length
    let w1 := r1.takeWhile isJsSpace
    let r2 := r1.drop w1.length
    match timeUnitAt r2 with
    | none => none
    | some u =>
        let r3 := r2.drop u.length
        let w2 := r3.takeWhile isJsSpace
        let r4 := r3.drop w2.length
        if lowerPrefix "ago".data r4 then
          some (ds ++ w1 ++ u ++ w2 ++ r4.take 3)
        else none

/-- Leftmost-match search: try the anchored matcher at every position from
the left, as the JavaScript regex engine does for an unanchored pattern. -/
def scanFirst (f : List Char → Option (List Char)) : List Char → Option (List Char)
  | [] => none
  | c :: rest =>
      match f (c :: rest) with
      | some m => some m
      | none => scanFirst f rest

example : scanFirst groupedPctAt "200K+arrow_upward1,000%".data = some "1,000%".data := by decide
example : scanFirst groupedPctAt "1234%".data = some "234%".data := by decide
example : scanFirst groupedPctAt "no pct".data = none := by decide
example : scanFirst groupedPctAt "1,22,333%".data = some "22,333%".data := by decide
example : scanFirst loosePctAt "1,22,333%".data = some "1,22,333%".data := by decide
example : scanFirst arrowUpwardPctAt "xarrow_upward25%y".data = some "25%".data := by decide
example : scanFirst volAt "200K+ searches·rest".data = some "200K+".data := by decide
example : scanFirst volAt "5M+searches".data = some "5M+".data := by decide
example : scanFirst volAt "42 Searches".data = some "42".data := by decide
example : scanFirst timeAt "200K+ searches·trending_upActive·20h ago".data = some "20h ago".data := by decide
example : scanFirst timeAt "2 hours ago".data = some "2 hours ago".data := by decide
example : scanFirst timeAt "50m ago".data = some "50m ago".data := by decide
example : scanFirst timeAt "50 minutes AGO".data = some "50 minutes AGO".data := by decide
example : scanFirst timeAt "ago 5".data = none := by decide

/-- The output record schema of the cleaner (`CleanedTrendData` in
data-cleaner.tsx); the spec calls it NormalizedRecord. -/
structure CleanedTrendData where
  trendName : String
  searchVolume : String
  timeAgo : String
  growthPercentage : String
  relatedSearches : List String
deriving Repr, DecidableEq

/-- The noise denylist of the related-searches filter
(data-cleaner.tsx, line 105). -/
def noiseWords : List String :=
  ["Search term", "query_statsExplore", "More actions", "Active",
   "trending_up", "checklistSelect", "more_vert"]

/-- The `find` predicate of the volume extraction:
`field.includes('searches') && (field.includes('K+') ||
field.includes('M+') || /\d+/.test(field))`. -/
def volumeFieldPred (f : List Char) : Bool :=
  jsIncludes f "searches".data &&
    (jsIncludes f "K+".data || jsIncludes f "M+".data || f.any Char.isDigit)

/-- The `find` predicate of the time extraction:
`field.includes('ago') || field.includes('hours ago') ||
field.includes('h ago') || field.includes('m ago')`. -/
def timeFieldPred (f : List Char) : Bool :=
  jsIncludes f "ago".data || jsIncludes f "hours ago".data ||
    jsIncludes f "h ago".data || jsIncludes f "m ago".data

/-- The `find` predicate of the growth fallback:
`field.includes('%') && /\d/.test(field)`. -/
def growthFieldPred (f : List Char) : Bool :=
  jsIncludes f "%".data && f.any Char.isDigit

/-- `timeMatch.replace(/^·/, '')`: remove one leading middle dot. -/
def stripOneLeadingMiddot : List Char → List Char
  | [] => []
  | c :: rest => if c == middleDot then rest else c :: rest

/-- `field.replace(/^·+|·+$/g, '')`: remove the leading and the trailing
run of middle dots. -/
def stripMiddots (f : List Char) : List Char :=
  ((f.dropWhile (· == middleDot)).reverse.dropWhile (· == middleDot)).reverse

/-- The admission test of the related-searches filter
(data-cleaner.tsx, lines 111-117), applied to the middot-stripped,
trimmed field. -/
def admitRelated (trendName : List Char) (cf : List Char) : Bool :=
  decide (cf.length > 3) &&
  !(noiseWords.any fun n => jsIncludes cf n.data) &&
  !(jsIncludes cf trendName) &&
  !(jsIncludes cf "searches".data) &&
  !(jsIncludes cf "%".data) &&
  !(jsIncludes cf "ago".data) &&
  (!cf.isEmpty && cf.all fun c => c.isAlpha || isJsSpace c)

/-- One step of the related-searches collection: the JavaScript `Set`
keeps first-seen insertion order and drops later duplicates. -/
def relatedStep (trendName : List Char) (acc : List (List Char)) (f : List Char) :
    List (List Char) :=
  if admitRelated trendName (jsTrim (stripMiddots f)) &&
      !(acc.contains (jsTrim (stripMiddots f))) then
    acc ++ [jsTrim (stripMiddots f)]
  else acc

/-- The related-searches extraction (data-cleaner.tsx, lines 104-123):
filter, deduplicate in first-seen order, keep the first five. -/
def collectRelated (trendName : List Char) (fields : List (List Char)) :
    List (List Char) :=
  (fields.foldl (relatedStep trendName) []).take 5

/-- The growth fallback on one field (data-cleaner.tsx, lines 83-98):
the `arrow_upward`-prefixed pattern, then the grouped-thousands pattern,
then the loose pattern; empty on total failure. -/
def growthFallbackPatterns (f : List Char) : List Char :=
  match scanFirst arrowUpwardPctAt f with
  | some m => m
  | none =>
      match scanFirst groupedPctAt f with
      | some m => m
      | none => (scanFirst loosePctAt f).getD []

/-- `cleanTrendsData` (data-cleaner.tsx, lines 9-126): the full
single-row normalization. -/
def cleanTrendsData (rawData : String) : CleanedTrendData :=
  let fields := fieldsOf rawData
  -- fields[0] || '' : the empty string is also the JavaScript default
  let trendName := fields.headD []
  let searchVolume :=
    match fields.find? volumeFieldPred with
    | none => []
    | some f => (scanFirst volAt f).getD []
  let timeAgo :=
    match fields.find? timeFieldPred with
    | none => []
    | some f =>
        match scanFirst timeAt f with
        | some m => m
        | none => jsTrim (stripOneLeadingMiddot f)
  let growthPercentage :=
    match scanFirst groupedPctAt rawData.data with
    | some m => m
    | none =>
        match fields.find? growthFieldPred with
        | none => []
        | some f => growthFallbackPatterns f
  { trendName := String.mk trendName
    searchVolume := String.mk searchVolume
    timeAgo := String.mk timeAgo
    growthPercentage := String.mk growthPercentage
    relatedSearches := (collectRelated trendName fields).map String.mk }

/-- One row of the batch input: a pre-joined blob or a fragment sequence
(`string | string[]` in the source). -/
def cleanRow : String ⊕ List String → CleanedTrendData
  | Sum.inl s => cleanTrendsData s
  | Sum.inr fragments => cleanTrendsData (String.intercalate "," fragments)

/-- `cleanTrendsDataArray` (data-cleaner.tsx, lines 129-139). -/
def cleanTrendsDataArray (rows : List (String ⊕ List String)) :
    List CleanedTrendData :=
  rows.map cleanRow

/-- The serialized header row. -/
def csvHeader : String := "Trend Name,Search Volume,Time Ago,Growth %,Related Searches"

/-- One serialized record line without its terminator: each of the five
cells wrapped in double quotes, the related searches joined by a
semicolon and a space. -/
def csvRow (item : CleanedTrendData) : String :=
  "\"" ++ item.trendName ++ "\",\"" ++ item.searchVolume ++ "\",\"" ++
    item.timeAgo ++ "\",\"" ++ item.growthPercentage ++ "\",\"" ++
    String.intercalate "; " item.relatedSearches ++ "\""

/-- `convertCleanedDataToCSV` (data-cleaner.tsx, lines 142-158), mirroring
the `csv += row + newline` accumulation of the source. -/
def convertCleanedDataToCSV (cleanedDataArray : List CleanedTrendData) : String :=
  cleanedDataArray.foldl (fun csv item => csv ++ csvRow item ++ "\n") (csvHeader ++ "\n")

/-- Per-field cleaning of the downstream parser
(`field.replace(/^"|"$/g, '').trim()`, evaluator.tsx line 195). -/
def evalCleanTok (t : List Char) : List Char :=
  jsTrim (stripWrapQuotes t)

/-- One line of the downstream naive parser (evaluator.tsx, lines
194-206): split on every comma, clean each token, take the first five as
the record cells, skip the line when the name cell is empty, and re-split
the related cell on semicolons. -/
def evalParseLine (line : List Char) : Option CleanedTrendData :=
  let parts := (splitOnChar ',' line).map evalCleanTok
  let name := parts.getD 0 []
  if name.isEmpty then none
  else
    some
      { trendName := String.mk name
        searchVolume := String.mk (parts.getD 1 [])
        timeAgo := String.mk (parts.getD 2 [])
        growthPercentage := String.mk (parts.getD 3 [])
        relatedSearches :=
          let rc := parts.getD 4 []
          if rc.isEmpty then []
          else (splitOnChar ';' rc).map fun s2 => String.mk (jsTrim s2) }

/-- The downstream consumer of the serialized file (evaluator.tsx, lines
187-206): drop the header line, keep lines with non-blank content, parse
each with the naive per-line parser. -/
def evaluatorParseCSV (csvContent : String) : List CleanedTrendData :=
  (((splitOnChar '\n' csvContent.data).drop 1).filter
      fun l => !(jsTrim l).isEmpty).filterMap evalParseLine

/-- The raw blob of Scenario A of the spec. -/
def scenarioABlob : String :=
  "\"brett james\",\"200K+ searches·trending_upActive·20h ago\",\"200K+arrow_upward1,000%\",\"brett james plane crash\",\"Search term\""

example :
    cleanTrendsData scenarioABlob =
      { trendName := "brett james", searchVolume := "200K+", timeAgo := "20h ago",
        growthPercentage := "1,000%", relatedSearches := [] } := by decide

example :
    cleanTrendsData "" =
      { trendName := "", searchVolume := "", timeAgo := "",
        growthPercentage := "", relatedSearches := [] } := by decide

/-- The Field Splitter as the spec words it: segment the text at commas
that lie outside an unescaped double-quote pair (a double quote toggles
the quoting state unless the previous character is a backslash), written
as a direct segmentation rather than as the push/accumulate loop of the
source. -/
def specTopSegments : Bool → Bool → List Char → List (List Char)
  | _, _, [] => [[]]
  | prevNotBS, inQ, c :: rest =>
      if c == ',' && !inQ then
        [] :: specTopSegments (c != '\\') inQ rest
      else
        match specTopSegments (c != '\\')
            (if c == '"' && prevNotBS then !inQ else inQ) rest with
        | s :: ss => (c :: s) :: ss
        | [] => [[c]]

/-- Drop the final segment when it is empty: trailing content after the
last delimiter is emitted only when present. -/
def dropFinalEmptySeg (segs : List (List Char)) : List (List Char) :=
  match segs.getLast? with
  | some [] => segs.dropLast
  | _ => segs

/-- The Field Splitter as the spec words it: top-level segmentation, each
segment trimmed and stripped of one wrapping quote pair, the trailing
empty segment dropped. -/
def specSplitFields (rawData : String) : List String :=
  (dropFinalEmptySeg (specTopSegments true false rawData.data)).map
    fun s => String.mk (cleanSegment s)

/-- Prepend pending accumulated characters to the first segment. -/
def consHead (cur : List Char) : List (List Char) → List (List Char)
  | [] => [cur]
  | s :: ss => (cur ++ s) :: ss

theorem specTopSegments_ne_nil (cs : List Char) (p q : Bool) :
    specTopSegments p q cs ≠ [] := by
  cases cs with
  | nil => simp [specTopSegments]
  | cons c rest =>
      simp only [specTopSegments]
      split
      · simp
      · split <;> simp

theorem dropFinalEmptySeg_cons (a : List Char) (ss : List (List Char))
    (h : ss ≠ []) :
    dropFinalEmptySeg (a :: ss) = a :: dropFinalEmptySeg ss := by
  cases ss with
  | nil => exact absurd rfl h
  | cons b bs =>
      unfold dropFinalEmptySeg
      rw [List.getLast?_cons_cons]
      cases hl : (b :: bs).getLast? with
      | none => simp at hl
      | some v =>
          cases v with
          | nil => simp
          | cons x xs => simp

theorem splitFieldsAux_eq_spec (cs : List Char) :
    ∀ (p q : Bool) (cur : List Char),
      splitFieldsAux cs p q cur =
        (dropFinalEmptySeg (consHead cur (specTopSegments p q cs))).map
          cleanSegment := by
  induction cs with
  | nil =>
      intro p q cur
      simp only [splitFieldsAux, specTopSegments, consHead, List.append_nil]
      cases cur with
      | nil => simp [dropFinalEmptySeg]
      | cons c cur2 => simp [dropFinalEmptySeg]
  | cons c rest ih =>
      intro p q cur
      by_cases hq : (c == '"' && p) = true
      · have hc : (c == ',' && !q) = false := by
          have hcq : c = '"' := eq_of_beq ((Bool.and_eq_true _ _).mp hq).1
          subst hcq
          simp
        simp only [splitFieldsAux, specTopSegments, hq, hc, Bool.false_eq_true,
          if_false, if_true]
        rw [ih]
        cases hsegs : specTopSegments (c != '\\') (!q) rest with
        | nil => exact absurd hsegs (specTopSegments_ne_nil rest _ _)
        | cons s ss => simp [consHead, hsegs, List.append_assoc]
      · have hq2 : (c == '"' && p) = false := Bool.not_eq_true _ ▸ hq
        by_cases hc : (c == ',' && !q) = true
        · simp only [splitFieldsAux, specTopSegments, hq2, hc,
            Bool.false_eq_true, if_false, if_true]
          rw [ih]
          cases hsegs : specTopSegments (c != '\\') q rest with
          | nil => exact absurd hsegs (specTopSegments_ne_nil rest _ _)
          | cons s ss =>
              simp only [consHead, List.nil_append, List.append_nil]
              rw [dropFinalEmptySeg_cons cur (s :: ss) (by simp)]
              simp
        · have hc2 : (c == ',' && !q) = false := Bool.not_eq_true _ ▸ hc
          simp only [splitFieldsAux, specTopSegments, hq2, hc2,
            Bool.false_eq_true, if_false]
          rw [ih]
          cases hsegs : specTopSegments (c != '\\') q rest with
          | nil => exact absurd hsegs (specTopSegments_ne_nil rest _ _)
          | cons s ss => simp [consHead, hsegs, List.append_assoc]

theorem splitFields_eq_spec_aux (rawData : String) :
    splitFields rawData = specSplitFields rawData := by
  unfold splitFields fieldsOf specSplitFields
  rw [splitFieldsAux_eq_spec]
  have hne := specTopSegments_ne_nil rawData.data true false
  cases hsegs : specTopSegments true false rawData.data with
  | nil => exact absurd hsegs hne
  | cons s ss =>
      simp [consHead, List.map_map, Function.comp]

theorem jsIncludes_iff (hay needle : List Char) :
    jsIncludes hay needle = true ↔ needle <:+: hay := by
  induction hay with
  | nil => simp [jsIncludes, List.isEmpty_iff, List.infix_nil]
  | cons c t ih =>
      simp [jsIncludes, List.infix_cons_iff, ih, List.isPrefixOf_iff_prefix,
        Bool.or_eq_true]

theorem jsIncludes_of_within {hay mid needle : List Char}
    (h1 : needle <:+: mid) (h2 : jsIncludes hay mid = true) :
    jsIncludes hay needle = true :=
  (jsIncludes_iff _ _).mpr (h1.trans ((jsIncludes_iff _ _).mp h2))

/-- The four-way disjunction of the time-field search is equivalent to the
single test for "ago", because "ago" is a substring of the three longer
literals. -/
theorem timeFieldPred_eq_ago (f : List Char) :
    timeFieldPred f = jsIncludes f "ago".data := by
  cases h : jsIncludes f "ago".data with
  | true => simp [timeFieldPred, h]
  | false =>
      have key : ∀ big : List Char, "ago".data <:+: big →
          jsIncludes f big = false := by
        intro big hinf
        cases hb : jsIncludes f big with
        | false => rfl
        | true => rw [jsIncludes_of_within hinf hb] at h; exact h
      simp [timeFieldPred, h, key "hours ago".data (by decide),
        key "h ago".data (by decide), key "m ago".data (by decide)]

/-- Elapsed-time extraction as the spec words it: from the first field
containing "ago", the regex capture when the pattern matches, otherwise
the field with one leading middle dot stripped and trimmed; empty when no
field contains "ago". -/
def specTimeAgo (rawData : String) : String :=
  match (fieldsOf rawData).find? (fun f => jsIncludes f "ago".data) with
  | none => ""
  | some f =>
      match scanFirst timeAt f with
      | some m => String.mk m
      | none => String.mk (jsTrim (stripOneLeadingMiddot f))

theorem timeAgo_eq_spec_aux (rawData : String) :
    (cleanTrendsData rawData).timeAgo = specTimeAgo rawData := by
  unfold cleanTrendsData specTimeAgo
  have hp : timeFieldPred = fun f => jsIncludes f "ago".data :=
    funext timeFieldPred_eq_ago
  rw [hp]
  cases hf : (fieldsOf rawData).find? (fun f => jsIncludes f "ago".data) with
  | none => simp [hf]
  | some f => cases hm : scanFirst timeAt f <;> simp [hf, hm]

/-- Growth-percentage extraction as the spec words it: first the
grouped-thousands pattern against the whole raw blob; only on failure the
first field containing "%" and a digit, with the icon-label-prefixed
pattern, then the grouped-thousands pattern, then the loose pattern;
empty when everything fails. -/
def specGrowth (rawData : String) : String :=
  match scanFirst groupedPctAt rawData.data with
  | some m => String.mk m
  | none =>
      match (fieldsOf rawData).find?
          (fun f => jsIncludes f "%".data && f.any Char.isDigit) with
      | none => ""
      | some f =>
          match scanFirst arrowUpwardPctAt f with
          | some m => String.mk m
          | none =>
              match scanFirst groupedPctAt f with
              | some m => String.mk m
              | none =>
                  match scanFirst loosePctAt f with
                  | some m => String.mk m
                  | none => ""

theorem growth_eq_spec_aux (rawData : String) :
    (cleanTrendsData rawData).growthPercentage = specGrowth rawData := by
  unfold cleanTrendsData specGrowth growthFallbackPatterns growthFieldPred
  cases h1 : scanFirst groupedPctAt rawData.data with
  | some m => simp [h1]
  | none =>
      cases h2 : (fieldsOf rawData).find?
          (fun f => jsIncludes f "%".data && f.any Char.isDigit) with
      | none => simp [h1, h2]
      | some f =>
          cases h3 : scanFirst arrowUpwardPctAt f with
          | some m => simp [h1, h2, h3]
          | none =>
              cases h4 : scanFirst groupedPctAt f with
              | some m => simp [h1, h2, h3, h4]
              | none =>
                  cases h5 : scanFirst loosePctAt f <;>
                    simp [h1, h2, h3, h4, h5]

theorem mem_foldl_relatedStep (tn : List Char) (fields : List (List Char)) :
    ∀ acc, (∀ x ∈ acc, admitRelated tn x = true) →
      ∀ x ∈ fields.foldl (relatedStep tn) acc, admitRelated tn x = true := by
  induction fields with
  | nil => intro acc hacc x hx; exact hacc x hx
  | cons f fs ih =>
      intro acc hacc x hx
      refine ih _ ?_ x hx
      intro y hy
      by_cases hcond : (admitRelated tn (jsTrim (stripMiddots f)) &&
          !(acc.contains (jsTrim (stripMiddots f)))) = true
      · unfold relatedStep at hy
        rw [if_pos hcond] at hy
        rcases List.mem_append.mp hy with h | h
        · exact hacc y h
        · rw [List.mem_singleton.mp h]
          exact ((Bool.and_eq_true _ _).mp hcond).1
      · unfold relatedStep at hy
        rw [if_neg hcond] at hy
        exact hacc y hy

theorem nodup_foldl_relatedStep (tn : List Char) (fields : List (List Char)) :
    ∀ acc : List (List Char), acc.Nodup →
      (fields.foldl (relatedStep tn) acc).Nodup := by
  induction fields with
  | nil => intro acc hacc; exact hacc
  | cons f fs ih =>
      intro acc hacc
      refine ih _ ?_
      by_cases hcond : (admitRelated tn (jsTrim (stripMiddots f)) &&
          !(acc.contains (jsTrim (stripMiddots f)))) = true
      · unfold relatedStep
        rw [if_pos hcond]
        have hnc : acc.contains (jsTrim (stripMiddots f)) = false := by
          have := ((Bool.and_eq_true _ _).mp hcond).2
          cases hcc : acc.contains (jsTrim (stripMiddots f)) with
          | false => rfl
          | true => rw [hcc] at this; exact absurd this (by decide)
        have hnm : jsTrim (stripMiddots f) ∉ acc := by
          intro hm
          have hcc : acc.contains (jsTrim (stripMiddots f)) = true :=
            List.elem_iff.mpr hm
          rw [hcc] at hnc
          exact Bool.true_eq_false.mp hnc
        simp [List.nodup_append, hacc, hnm]
      · unfold relatedStep
        rw [if_neg hcond]
        exact hacc

theorem foldl_relatedStep_of_reject (tn : List Char)
    (h : ∀ cf : List Char, admitRelated tn cf = false) :
    ∀ (fields : List (List Char)) (acc : List (List Char)),
      fields.foldl (relatedStep tn) acc = acc := by
  intro fields
  induction fields with
  | nil => intro acc; rfl
  | cons f fs ih =>
      intro acc
      have hstep : relatedStep tn acc f = acc := by
        unfold relatedStep
        rw [h (jsTrim (stripMiddots f))]
        simp
      simp only [List.foldl_cons, hstep]
      exact ih acc

theorem admitRelated_nil (cf : List Char) : admitRelated [] cf = false := by
  have h : jsIncludes cf [] = true := (jsIncludes_iff _ _).mpr List.nil_infix
  simp [admitRelated, h]

theorem cleanTrendsData_trendName (raw : String) :
    (cleanTrendsData raw).trendName = String.mk ((fieldsOf raw).headD []) := rfl

theorem cleanTrendsData_relatedSearches (raw : String) :
    (cleanTrendsData raw).relatedSearches =
      (collectRelated ((fieldsOf raw).headD []) (fieldsOf raw)).map String.mk := rfl

theorem mem_collectRelated (tn : List Char) (fields : List (List Char))
    (cf : List Char) (h : cf ∈ collectRelated tn fields) :
    admitRelated tn cf = true := by
  unfold collectRelated at h
  exact mem_foldl_relatedStep tn fields [] (by intro x hx; simp at hx) cf
    (List.mem_of_mem_take h)

theorem relatedSearches_invariants_core (raw : String) :
    (cleanTrendsData raw).relatedSearches.length ≤ 5 ∧
    (cleanTrendsData raw).relatedSearches.Nodup ∧
    ∀ x ∈ (cleanTrendsData raw).relatedSearches,
      jsIncludes x.data (cleanTrendsData raw).trendName.data = false ∧
      (∀ n ∈ noiseWords, jsIncludes x.data n.data = false) ∧
      jsIncludes x.data "%".data = false ∧
      jsIncludes x.data "searches".data = false ∧
      jsIncludes x.data "ago".data = false := by
  rw [cleanTrendsData_relatedSearches, cleanTrendsData_trendName]
  refine ⟨?_, ?_, ?_⟩
  · rw [List.length_map]
    exact List.length_take_le 5 _
  · refine List.Nodup.map (fun a b hab => by injection hab) ?_
    exact List.Nodup.sublist (List.take_sublist 5 _)
      (nodup_foldl_relatedStep _ _ [] List.nodup_nil)
  · intro x hx
    rcases List.mem_map.mp hx with ⟨cf, hcf, hxeq⟩
    have hadmit := mem_collectRelated _ _ cf hcf
    have hdata : x.data = cf := by rw [← hxeq]
    simp only [admitRelated, Bool.and_eq_true, Bool.not_eq_true',
      decide_eq_true_eq] at hadmit
    obtain ⟨⟨⟨⟨⟨⟨_, hnoise⟩, htn⟩, hsearches⟩, hpct⟩, hago⟩, _⟩ := hadmit
    refine ⟨by rw [hdata]; exact htn, ?_, by rw [hdata]; exact hpct,
      by rw [hdata]; exact hsearches, by rw [hdata]; exact hago⟩
    intro n hn
    rw [hdata]
    cases hb : jsIncludes cf n.data with
    | false => rfl
    | true =>
        have : noiseWords.any (fun nn => jsIncludes cf nn.data) = true :=
          List.any_eq_true.mpr ⟨n, hn, hb⟩
        rw [this] at hnoise
        simp at hnoise

theorem related_empty_core (raw : String)
    (h : (cleanTrendsData raw).trendName = "") :
    (cleanTrendsData raw).relatedSearches = [] := by
  have h2 : String.mk ((fieldsOf raw).headD []) = "" :=
    (cleanTrendsData_trendName raw) ▸ h
  have htn : (fieldsOf raw).headD [] = [] := congrArg String.data h2
  rw [cleanTrendsData_relatedSearches, htn]
  unfold collectRelated
  rw [foldl_relatedStep_of_reject [] admitRelated_nil]
  simp

/-- The serialized body: one line per record, in order. -/
def csvBody : List CleanedTrendData → String
  | [] => ""
  | r :: rs => csvRow r ++ "\n" ++ csvBody rs

theorem convert_foldl_body (rs : List CleanedTrendData) :
    ∀ init : String,
      rs.foldl (fun csv item => csv ++ csvRow item ++ "\n") init =
        init ++ csvBody rs := by
  induction rs with
  | nil => intro init; simp [csvBody, String.append_empty]
  | cons r rest ih =>
      intro init
      simp only [List.foldl_cons, csvBody]
      rw [ih]
      simp [String.append_assoc]

/-- A serialized cell that survives the naive re-parse: no comma (the
naive parser splits on every comma), no newline (it would break the line
structure), and stable under trimming (the parser trims each token). -/
def cellOk (l : List Char) : Bool :=
  !(l.contains ',') && !(l.contains '\n') && (jsTrim l == l)

/-- A record whose four scalar cells survive the naive re-parse, whose
trend name is non-empty (the parser skips lines with an empty name cell)
and whose joined related cell introduces no extra line. -/
def roundTripSafe (r : CleanedTrendData) : Bool :=
  cellOk r.trendName.data && !(r.trendName.data.isEmpty) &&
  cellOk r.searchVolume.data && cellOk r.timeAgo.data &&
  cellOk r.growthPercentage.data &&
  !((String.intercalate "; " r.relatedSearches).data.contains '\n')

/-- The four scalar cells of a record, the part of the round trip the
spec asserts is recovered exactly. -/
def proj4 (r : CleanedTrendData) : String × String × String × String :=
  (r.trendName, r.searchVolume, r.timeAgo, r.growthPercentage)

/-- A quote-wrapped serialized cell. -/
def wrapQ (l : List Char) : List Char := '"' :: (l ++ ['"'])

theorem contains_false_not_mem {l : List Char} {a : Char}
    (h : l.contains a = false) : a ∉ l := by
  intro hm
  have hc : l.contains a = true := List.elem_iff.mpr hm
  rw [hc] at h
  exact Bool.true_eq_false.mp h

theorem mem_wrapQ (c : Char) (x : List Char) :
    c ∈ wrapQ x ↔ c = '"' ∨ c ∈ x := by
  simp [wrapQ, List.mem_append, or_comm]

theorem splitOnChar_ne_nil (sep : Char) (l : List Char) :
    splitOnChar sep l ≠ [] := by
  cases l with
  | nil => simp [splitOnChar]
  | cons c rest =>
      simp only [splitOnChar]
      split
      · simp
      · split <;> simp

theorem splitOnChar_of_not_mem (sep : Char) (a : List Char) (h : sep ∉ a) :
    splitOnChar sep a = [a] := by
  induction a with
  | nil => rfl
  | cons c rest ih =>
      have hc : (c == sep) = false := by
        have : c ≠ sep := fun he => h (he ▸ List.mem_cons_self c rest)
        simpa using this
      have hrest : sep ∉ rest := fun hm => h (List.mem_cons_of_mem c hm)
      simp only [splitOnChar, hc, Bool.false_eq_true, if_false]
      rw [ih hrest]

theorem splitOnChar_append_sep (sep : Char) (a b : List Char) (h : sep ∉ a) :
    splitOnChar sep (a ++ sep :: b) = a :: splitOnChar sep b := by
  induction a with
  | nil => simp [splitOnChar]
  | cons c rest ih =>
      have hc : (c == sep) = false := by
        have : c ≠ sep := fun he => h (he ▸ List.mem_cons_self c rest)
        simpa using this
      have hrest : sep ∉ rest := fun hm => h (List.mem_cons_of_mem c hm)
      simp only [List.cons_append, splitOnChar, hc, Bool.false_eq_true, if_false,
        List.append_eq]
      rw [ih hrest]

theorem stripWrapQuotes_wrapQ (l : List Char) :
    stripWrapQuotes (wrapQ l) = l := by
  unfold stripWrapQuotes wrapQ
  simp [List.getLast?_concat, List.dropLast_concat]

theorem evalCleanTok_wrapQ (l : List Char) (ht : jsTrim l = l) :
    evalCleanTok (wrapQ l) = l := by
  unfold evalCleanTok
  rw [stripWrapQuotes_wrapQ, ht]

theorem csvRow_data (r : CleanedTrendData) :
    (csvRow r).data =
      wrapQ r.trendName.data ++ ',' :: (wrapQ r.searchVolume.data ++ ',' ::
        (wrapQ r.timeAgo.data ++ ',' :: (wrapQ r.growthPercentage.data ++ ',' ::
          wrapQ (String.intercalate "; " r.relatedSearches).data))) := by
  simp only [csvRow, String.data_append]
  simp [wrapQ, show ("\"" : String).data = ['"'] from rfl,
    show ("\",\"" : String).data = ['"', ',', '"'] from rfl]

theorem cellOk_unpack {l : List Char} (h : cellOk l = true) :
    (',' ∉ l ∧ '\n' ∉ l) ∧ jsTrim l = l := by
  simpa [cellOk, Bool.and_eq_true, Bool.not_eq_true'] using h

theorem not_mem_wrapQ_of_contains {l : List Char} {c : Char}
    (hc : c ≠ '"') (h : c ∉ l) : c ∉ wrapQ l := by
  intro hm
  rcases (mem_wrapQ c l).mp hm with h1 | h1
  · exact hc h1
  · exact h h1

theorem roundTripSafe_unpack {r : CleanedTrendData} (h : roundTripSafe r = true) :
    cellOk r.trendName.data = true ∧ r.trendName.data ≠ [] ∧
    cellOk r.searchVolume.data = true ∧ cellOk r.timeAgo.data = true ∧
    cellOk r.growthPercentage.data = true ∧
    '\n' ∉ (String.intercalate "; " r.relatedSearches).data := by
  have h2 := h
  simp [roundTripSafe, Bool.and_eq_true, Bool.not_eq_true'] at h2
  obtain ⟨⟨⟨⟨⟨a, b⟩, c⟩, d⟩, e⟩, f⟩ := h2
  exact ⟨a, b, c, d, e, f⟩

theorem csvRow_no_newline (r : CleanedTrendData) (h : roundTripSafe r = true) :
    '\n' ∉ (csvRow r).data := by
  obtain ⟨h1, _, h3, h4, h5, h6⟩ := roundTripSafe_unpack h
  rw [csvRow_data]
  intro hm
  have hq : ('\n' : Char) ≠ '"' := by decide
  have hcomma : ('\n' : Char) ≠ ',' := by decide
  rcases List.mem_append.mp hm with hh | hh
  · exact not_mem_wrapQ_of_contains hq (cellOk_unpack h1).1.2 hh
  rcases List.mem_cons.mp hh with hh | hh
  · exact hcomma hh
  rcases List.mem_append.mp hh with hh | hh
  · exact not_mem_wrapQ_of_contains hq (cellOk_unpack h3).1.2 hh
  rcases List.mem_cons.mp hh with hh | hh
  · exact hcomma hh
  rcases List.mem_append.mp hh with hh | hh
  · exact not_mem_wrapQ_of_contains hq (cellOk_unpack h4).1.2 hh
  rcases List.mem_cons.mp hh with hh | hh
  · exact hcomma hh
  rcases List.mem_append.mp hh with hh | hh
  · exact not_mem_wrapQ_of_contains hq (cellOk_unpack h5).1.2 hh
  rcases List.mem_cons.mp hh with hh | hh
  · exact hcomma hh
  · exact not_mem_wrapQ_of_contains hq h6 hh

theorem evalParseLine_csvRow (r : CleanedTrendData) (h : roundTripSafe r = true) :
    ∃ p, evalParseLine (csvRow r).data = some p ∧ proj4 p = proj4 r := by
  obtain ⟨h1, h2, h3, h4, h5, _⟩ := roundTripSafe_unpack h
  have hq : (',' : Char) ≠ '"' := by decide
  have hsplit : splitOnChar ',' (csvRow r).data =
      wrapQ r.trendName.data :: wrapQ r.searchVolume.data ::
      wrapQ r.timeAgo.data :: wrapQ r.growthPercentage.data ::
      splitOnChar ',' (wrapQ (String.intercalate "; " r.relatedSearches).data) := by
    rw [csvRow_data]
    rw [splitOnChar_append_sep _ _ _ (not_mem_wrapQ_of_contains hq (cellOk_unpack h1).1.1)]
    rw [splitOnChar_append_sep _ _ _ (not_mem_wrapQ_of_contains hq (cellOk_unpack h3).1.1)]
    rw [splitOnChar_append_sep _ _ _ (not_mem_wrapQ_of_contains hq (cellOk_unpack h4).1.1)]
    rw [splitOnChar_append_sep _ _ _ (not_mem_wrapQ_of_contains hq (cellOk_unpack h5).1.1)]
  cases hps : splitOnChar ','
      (wrapQ (String.intercalate "; " r.relatedSearches).data) with
  | nil => exact absurd hps (splitOnChar_ne_nil _ _)
  | cons p0 ps2 =>
      unfold evalParseLine
      rw [hsplit, hps]
      simp only [List.map_cons]
      rw [evalCleanTok_wrapQ _ (cellOk_unpack h1).2,
        evalCleanTok_wrapQ _ (cellOk_unpack h3).2,
        evalCleanTok_wrapQ _ (cellOk_unpack h4).2,
        evalCleanTok_wrapQ _ (cellOk_unpack h5).2]
      have h2b : r.trendName.data.isEmpty = false := by
        cases hE : r.trendName.data.isEmpty with
        | false => rfl
        | true => exact absurd (List.isEmpty_iff.mp hE) h2
      simp only [List.getD_cons_zero, List.getD_cons_succ, h2b,
        Bool.false_eq_true, if_false]
      refine ⟨_, rfl, ?_⟩
      simp [proj4]

theorem filterMap_parse_rows (rs : List CleanedTrendData)
    (h : ∀ r ∈ rs, roundTripSafe r = true) :
    ((rs.map fun r => (csvRow r).data).filterMap evalParseLine).map proj4 =
      rs.map proj4 := by
  induction rs with
  | nil => rfl
  | cons r rest ih =>
      obtain ⟨p, hp, hproj⟩ := evalParseLine_csvRow r (h r (List.mem_cons_self r rest))
      simp only [List.map_cons, List.filterMap_cons, hp]
      rw [hproj, ih (fun x hx => h x (List.mem_cons_of_mem r hx))]

theorem body_lines (rs : List CleanedTrendData)
    (h : ∀ r ∈ rs, roundTripSafe r = true) :
    splitOnChar '\n' (csvBody rs).data =
      (rs.map fun r => (csvRow r).data) ++ [[]] := by
  induction rs with
  | nil => rfl
  | cons r rest ih =>
      have hdata : (csvBody (r :: rest)).data =
          (csvRow r).data ++ '\n' :: (csvBody rest).data := by
        show (csvRow r ++ "\n" ++ csvBody rest).data = _
        simp [String.data_append, show ("\n" : String).data = ['\n'] from rfl]
      rw [hdata,
        splitOnChar_append_sep _ _ _ (csvRow_no_newline r (h r (List.mem_cons_self r rest))),
        ih (fun x hx => h x (List.mem_cons_of_mem r hx))]
      rfl

theorem jsTrim_quote_cons_not_empty (xs : List Char) :
    (jsTrim ('"' :: xs)).isEmpty = false := by
  unfold jsTrim
  have hns : isJsSpace '"' = false := by decide
  have h1 : List.dropWhile isJsSpace ('"' :: xs) = '"' :: xs := by
    simp [List.dropWhile, hns]
  rw [h1]
  cases hE : ((('"' :: xs).reverse.dropWhile isJsSpace).reverse).isEmpty with
  | false => rfl
  | true =>
      have h2 : (('"' :: xs).reverse.dropWhile isJsSpace).reverse = [] :=
        List.isEmpty_iff.mp hE
      have h3 : ('"' :: xs).reverse.dropWhile isJsSpace = [] := by
        simpa using congrArg List.reverse h2
      have h4 := List.dropWhile_eq_nil_iff.mp h3 '"'
        (by simp)
      exact absurd h4 (by decide)

theorem csvRow_head_quote (r : CleanedTrendData) :
    ∃ xs, (csvRow r).data = '"' :: xs := by
  rw [csvRow_data]
  exact ⟨_, rfl⟩

theorem filter_row_lines (rs : List CleanedTrendData) :
    ((rs.map fun r => (csvRow r).data) ++ [[]]).filter
        (fun l => !(jsTrim l).isEmpty) =
      rs.map fun r => (csvRow r).data := by
  rw [List.filter_append]
  have h2 : List.filter (fun l => !(jsTrim l).isEmpty) [([] : List Char)] = [] := by
    simp [jsTrim]
  rw [h2, List.append_nil]
  apply List.filter_eq_self.mpr
  intro line hline
  rcases List.mem_map.mp hline with ⟨r, _, hr⟩
  obtain ⟨xs, hxs⟩ := csvRow_head_quote r
  rw [← hr, hxs]
  simp [jsTrim_quote_cons_not_empty]

theorem csv_roundtrip_core (rs : List CleanedTrendData)
    (h : ∀ r ∈ rs, roundTripSafe r = true) :
    (evaluatorParseCSV (convertCleanedDataToCSV rs)).map proj4 = rs.map proj4 := by
  have hconv : convertCleanedDataToCSV rs = (csvHeader ++ "\n") ++ csvBody rs :=
    convert_foldl_body rs (csvHeader ++ "\n")
  have hdata : (convertCleanedDataToCSV rs).data =
      csvHeader.data ++ '\n' :: (csvBody rs).data := by
    rw [hconv]
    simp [String.data_append, show ("\n" : String).data = ['\n'] from rfl]
  unfold evaluatorParseCSV
  rw [hdata,
    splitOnChar_append_sep _ _ _ (by decide : '\n' ∉ csvHeader.data),
    body_lines rs h]
  simp only [List.drop_succ_cons, List.drop_zero]
  rw [filter_row_lines, filterMap_parse_rows rs h]

/-- C1 (amended): the round trip through the serializer and the downstream
naive parser recovers trendName, searchVolume, timeAgo and
growthPercentage for records whose four scalar cells contain no comma and
no newline and are trim-stable, whose trend name is non-empty, and whose
joined related cell contains no newline.  The original claim, quantified
over all records, fails because a growth cell such as "1,000%" contains a
comma and the downstream parser splits on every comma. -/
theorem csv_roundtrip_recovers_scalar_fields (rs : List CleanedTrendData)
    (h : ∀ r ∈ rs, roundTripSafe r = true) :
    (evaluatorParseCSV (convertCleanedDataToCSV rs)).map proj4 = rs.map proj4 :=
  csv_roundtrip_core rs h

/-- Counterexample to C1 as stated: for the record with growthPercentage
"1,000%" (the flagship value of the pipeline), the downstream naive parser
recovers "1", not "1,000%". -/
theorem csv_roundtrip_counterexample :
    (evaluatorParseCSV (convertCleanedDataToCSV
        [{ trendName := "brett james", searchVolume := "200K+", timeAgo := "20h ago",
           growthPercentage := "1,000%", relatedSearches := [] }])).map
        (fun r => r.growthPercentage) = ["1"] ∧
    ¬ ((evaluatorParseCSV (convertCleanedDataToCSV
        [{ trendName := "brett james", searchVolume := "200K+", timeAgo := "20h ago",
           growthPercentage := "1,000%", relatedSearches := [] }])).map
        (fun r => r.growthPercentage) =
        [({ trendName := "brett james", searchVolume := "200K+", timeAgo := "20h ago",
            growthPercentage := "1,000%",
            relatedSearches := [] } : CleanedTrendData).growthPercentage]) := by
  decide

/-- Witness for the amended C1 at a concrete safe record. -/
theorem csv_roundtrip_recovers_scalar_fields_witness :
    (∀ r ∈ [({ trendName := "brett james", searchVolume := "200K+",
               timeAgo := "20h ago", growthPercentage := "1000%",
               relatedSearches := ["plane crash"] } : CleanedTrendData)],
        roundTripSafe r = true) ∧
    (evaluatorParseCSV (convertCleanedDataToCSV
        [{ trendName := "brett james", searchVolume := "200K+",
           timeAgo := "20h ago", growthPercentage := "1000%",
           relatedSearches := ["plane crash"] }])).map proj4 =
      [({ trendName := "brett james", searchVolume := "200K+",
          timeAgo := "20h ago", growthPercentage := "1000%",
          relatedSearches := ["plane crash"] } : CleanedTrendData)].map proj4 :=
  ⟨by decide, csv_roundtrip_recovers_scalar_fields _ (by decide)⟩

/-- C2: on the Scenario A blob the code produces the four scalar fields
the spec states, but an empty relatedSearches list: the only candidate
fragment, "brett james plane crash", is rejected because it contains the
trend name, and no standalone "plane crash" field exists; the expected
output comment in the source nevertheless documents a list containing
"plane crash". -/
theorem scenarioA_code_output :
    cleanTrendsData scenarioABlob =
      { trendName := "brett james", searchVolume := "200K+", timeAgo := "20h ago",
        growthPercentage := "1,000%", relatedSearches := [] } := by
  decide

/-- C3: the growth extraction first matches the grouped-thousands pattern
against the whole raw blob, and only on failure scans the fields
containing "%" and a digit with the three fallback patterns in order,
yielding the empty string when everything fails; stated as equality with
a definition transcribed from the spec wording. -/
theorem growthPercentage_matches_spec_order (rawData : String) :
    (cleanTrendsData rawData).growthPercentage = specGrowth rawData :=
  growth_eq_spec_aux rawData

/-- C4: for every blob, relatedSearches has at most five entries, no
duplicates, and no entry contains the trend name, a noise label, "%",
"searches" or "ago" as a substring. -/
theorem relatedSearches_invariants (raw : String) :
    (cleanTrendsData raw).relatedSearches.length ≤ 5 ∧
    (cleanTrendsData raw).relatedSearches.Nodup ∧
    ∀ x ∈ (cleanTrendsData raw).relatedSearches,
      jsIncludes x.data (cleanTrendsData raw).trendName.data = false ∧
      (∀ n ∈ noiseWords, jsIncludes x.data n.data = false) ∧
      jsIncludes x.data "%".data = false ∧
      jsIncludes x.data "searches".data = false ∧
      jsIncludes x.data "ago".data = false :=
  relatedSearches_invariants_core raw

/-- Witness for C4 at a concrete blob with a non-empty result list. -/
theorem relatedSearches_invariants_witness :
    ("efgh" ∈ (cleanTrendsData "abcd,efgh").relatedSearches) ∧
    (jsIncludes "efgh".data (cleanTrendsData "abcd,efgh").trendName.data = false ∧
      (∀ n ∈ noiseWords, jsIncludes "efgh".data n.data = false) ∧
      jsIncludes "efgh".data "%".data = false ∧
      jsIncludes "efgh".data "searches".data = false ∧
      jsIncludes "efgh".data "ago".data = false) :=
  ⟨by decide, (relatedSearches_invariants "abcd,efgh").2.2 "efgh" (by decide)⟩

/-- C5: the quote-aware splitter splits exactly at commas outside an
unescaped quote pair, trims and quote-strips every produced field, and
emits trailing content after the last delimiter as a final field; stated
as equality with a segmentation-style definition transcribed from the
spec wording. -/
theorem splitFields_matches_spec (rawData : String) :
    splitFields rawData = specSplitFields rawData :=
  splitFields_eq_spec_aux rawData

/-- C6: batch cleaning is total, returns one record per row in input
order, joins fragment rows with a comma, and maps a degenerate row (for
example the empty fragment list) to the all-empty record while the other
rows are still processed. -/
theorem cleanTrendsDataArray_total_ordered (rows : List (String ⊕ List String))
    (i : Nat) :
    (cleanTrendsDataArray rows).length = rows.length ∧
    (cleanTrendsDataArray rows)[i]? = (rows[i]?).map cleanRow ∧
    (∀ fragments : List String,
      cleanRow (Sum.inr fragments) =
        cleanTrendsData (String.intercalate "," fragments)) ∧
    cleanRow (Sum.inr []) =
      { trendName := "", searchVolume := "", timeAgo := "",
        growthPercentage := "", relatedSearches := [] } ∧
    cleanTrendsData "" =
      { trendName := "", searchVolume := "", timeAgo := "",
        growthPercentage := "", relatedSearches := [] } := by
  refine ⟨by simp [cleanTrendsDataArray],
    by simp [cleanTrendsDataArray, List.getElem?_map],
    fun _ => rfl, by decide, by decide⟩

/-- C7: the serializer emits the exact header line, then one line per
record in order, each of the five cells double-quote-wrapped and the
related searches joined by "; "; the empty sequence yields header-only
output. -/
theorem convertCleanedDataToCSV_characterization (arr : List CleanedTrendData) :
    convertCleanedDataToCSV arr =
      "Trend Name,Search Volume,Time Ago,Growth %,Related Searches\n" ++
        csvBody arr ∧
    convertCleanedDataToCSV [] =
      "Trend Name,Search Volume,Time Ago,Growth %,Related Searches\n" ∧
    ∀ (r : CleanedTrendData) (rs : List CleanedTrendData),
      csvBody (r :: rs) =
        "\"" ++ r.trendName ++ "\",\"" ++ r.searchVolume ++ "\",\"" ++
          r.timeAgo ++ "\",\"" ++ r.growthPercentage ++ "\",\"" ++
          String.intercalate "; " r.relatedSearches ++ "\"" ++ "\n" ++
          csvBody rs := by
  refine ⟨?_, ?_, fun r rs => rfl⟩
  · rw [show ("Trend Name,Search Volume,Time Ago,Growth %,Related Searches\n" : String) =
        csvHeader ++ "\n" from by decide]
    exact convert_foldl_body arr (csvHeader ++ "\n")
  · rw [show ("Trend Name,Search Volume,Time Ago,Growth %,Related Searches\n" : String) =
        csvHeader ++ "\n" from by decide]
    exact convert_foldl_body [] (csvHeader ++ "\n")

/-- C8: timeAgo comes from the first field containing "ago", as the regex
capture when the time pattern matches and otherwise as the field with one
leading middle dot stripped and trimmed, empty when no field qualifies;
stated as equality with a definition transcribed from the spec wording. -/
theorem timeAgo_matches_spec (rawData : String) :
    (cleanTrendsData rawData).timeAgo = specTimeAgo rawData :=
  timeAgo_eq_spec_aux rawData

/-- C9: the trend name is the first split field verbatim when it is
non-empty, and the empty string when the field sequence is empty. -/
theorem trendName_is_first_field (raw : String) :
    (∀ (f : String) (rest : List String),
      splitFields raw = f :: rest → f ≠ "" →
        (cleanTrendsData raw).trendName = f) ∧
    (splitFields raw = [] → (cleanTrendsData raw).trendName = "") := by
  constructor
  · intro f rest h hne
    have hmap : (fieldsOf raw).map String.mk = f :: rest := h
    cases hf : fieldsOf raw with
    | nil => rw [hf] at hmap; simp at hmap
    | cons c cs =>
        rw [hf] at hmap
        simp only [List.map_cons, List.cons.injEq] at hmap
        rw [cleanTrendsData_trendName, hf]
        exact hmap.1
  · intro h
    have hmap : (fieldsOf raw).map String.mk = [] := h
    have hf : fieldsOf raw = [] := List.map_eq_nil_iff.mp hmap
    rw [cleanTrendsData_trendName, hf]
    rfl

/-- Witness for C9 at concrete inputs for both branches. -/
theorem trendName_is_first_field_witness :
    (cleanTrendsData "ab,cd").trendName = "ab" ∧
    (cleanTrendsData "").trendName = "" :=
  ⟨(trendName_is_first_field "ab,cd").1 "ab" ["cd"] (by decide) (by decide),
   (trendName_is_first_field "").2 (by decide)⟩

/-- C10: when the extracted trend name is empty, every candidate is
rejected by the containment filter (the empty string is a substring of
everything), so relatedSearches is empty. -/
theorem relatedSearches_empty_of_empty_trendName (raw : String)
    (h : (cleanTrendsData raw).trendName = "") :
    (cleanTrendsData raw).relatedSearches = [] :=
  related_empty_core raw h

/-- Witness for C10: a blob whose first field is empty. -/
theorem relatedSearches_empty_of_empty_trendName_witness :
    (cleanTrendsData ",abcd,efgh").trendName = "" ∧
    (cleanTrendsData ",abcd,efgh").relatedSearches = [] :=
  ⟨by decide, relatedSearches_empty_of_empty_trendName ",abcd,efgh" (by decide)⟩

example : splitFields "a,b , c" = ["a", "b", "c"] := by decide
example : splitFields "\"a,b\",c" = ["a,b", "c"] := by decide
example : splitFields "" = [] := by decide
example : splitFields "a,,b" = ["a", "", "b"] := by decide
example : splitFields "a," = ["a"] := by decide
example : splitOnChar ',' "a,,b".data = ["a".data, [], "b".data] := by decide
